import Mathlib

/-!
Shallow embedding of the yen-formatting and count-up-animation core of
`src/shared/base.js` (Mint Design System utilities), together with proofs
of the specification claims about it.

Modelling conventions:
* JS finite numbers are modelled as `ℚ`; `NaN` is modelled by the extra
  constructor `JSNum.nan` (the formatter is the only function whose claims
  mention `NaN`).  `ℚ` has no signed zero, so JS's `-0` renders here as
  `"0"`; no theorem below depends on an input whose JS output is `"-0"`.
* `Math.round` rounds half toward `+∞`: `jround q = ⌊q + 1/2⌋`.
* `Number.prototype.toLocaleString('ja-JP')` on an integer groups digits in
  threes with commas (`groupDigits`); it is only ever applied to integral
  values in this file, mirroring the source's call sites.
* `Number.prototype.toFixed(1)` rounds to tenths with ties toward the
  larger result (per the ECMAScript definition), here `⌊10q + 1/2⌋`.
* The `requestAnimationFrame` scheduler is modelled as an explicit event
  list (`AnimEvent.frame now` fires the pending callback at timestamp
  `now`; `AnimEvent.cancel id` is `cancelAnimationFrame(id)`), with ids
  allocated in order starting from 0.
-/

namespace Money

/-- JS `Math.round`: nearest integer, ties toward `+∞`. -/
def jround (q : ℚ) : ℤ := ⌊q + 1/2⌋

/-- Left-pad a 3-digit group with zeros (used for every group after the first). -/
def pad3 (n : ℕ) : String :=
  if n < 10 then "00" ++ toString n
  else if n < 100 then "0" ++ toString n
  else toString n

/-- Fueled digit-grouping loop: groups of three digits separated by commas. -/
def groupNatAux : ℕ → ℕ → String
  | 0, n => toString n
  | fuel + 1, n =>
    if n < 1000 then toString n
    else groupNatAux fuel (n / 1000) ++ "," ++ pad3 (n % 1000)

/-- Comma-group the decimal digits of a natural number (`ja-JP` grouping). -/
def groupDigitsNat (n : ℕ) : String := groupNatAux n n

/-- Model of `Number.prototype.toLocaleString('ja-JP')` for an integer value. -/
def groupDigits (i : ℤ) : String :=
  if i < 0 then "-" ++ groupDigitsNat i.natAbs else groupDigitsNat i.natAbs

/-- A JS number as consumed by the formatter: a finite rational or `NaN`. -/
inductive JSNum where
  | nan : JSNum
  | num : ℚ → JSNum
deriving DecidableEq

/-- JS truncation toward zero (used by the `%` operator). -/
def jsTrunc (q : ℚ) : ℤ := if 0 ≤ q then ⌊q⌋ else ⌈q⌉

/-- JS `Math.round` lifted to `JSNum` (`Math.round(NaN) = NaN`). -/
def jsRound : JSNum → JSNum
  | .nan => .nan
  | .num q => .num ((jround q : ℤ) : ℚ)

/-- JS `Math.floor` lifted to `JSNum`. -/
def jsFloor : JSNum → JSNum
  | .nan => .nan
  | .num q => .num ((⌊q⌋ : ℤ) : ℚ)

/-- Division of a `JSNum` by a nonzero numeric literal. -/
def jsDivC : JSNum → ℚ → JSNum
  | .nan, _ => .nan
  | .num q, c => .num (q / c)

/-- JS remainder `q % c` for a positive literal divisor `c`:
`q - c * trunc(q / c)` (sign follows the dividend). -/
def jsModC : JSNum → ℚ → JSNum
  | .nan, _ => .nan
  | .num q, c => .num (q - c * ((jsTrunc (q / c) : ℤ) : ℚ))

/-- JS `>=` against a numeric literal; false when the left side is `NaN`. -/
def jsGe (a : JSNum) (c : ℚ) : Bool :=
  match a with
  | .nan => false
  | .num q => decide (c ≤ q)

/-- Model of `toLocaleString('ja-JP')` on a `JSNum`.  `NaN` renders as `"NaN"`.
Every call site in `base.js` passes an integral value (output of
`Math.round` / `Math.floor`), which this definition renders exactly. -/
def jsToLocaleString : JSNum → String
  | .nan => "NaN"
  | .num q => groupDigits ⌊q⌋

/-- The record returned by `fmtYenParts` (`{ num, unit }`). -/
structure FormattedParts where
  num : String
  unit : String
deriving DecidableEq, Repr

/-- Function `fmtYenParts` from `src/shared/base.js`, line by line:
round, split at 1e8 into 億 and 万 components, group digits. -/
def fmtYenParts (n0 : JSNum) : FormattedParts :=
  let n := jsRound n0
  if jsGe n 100000000 then
    let oku := jsFloor (jsDivC n 100000000)
    let man := jsRound (jsDivC (jsModC n 100000000) 10000)
    if man = .num 0 then ⟨jsToLocaleString oku, "億円"⟩
    else ⟨jsToLocaleString oku ++ "億" ++ jsToLocaleString man, "万円"⟩
  else ⟨jsToLocaleString (jsRound (jsDivC n 10000)), "万円"⟩

/-- Function `fmtYen` from `src/shared/base.js`: concatenate the two parts. -/
def fmtYen (n : JSNum) : String :=
  (fmtYenParts n).num ++ (fmtYenParts n).unit

/-- Model of `Number.prototype.toFixed(1)`: one decimal digit, ties toward the
larger candidate (i.e. toward `+∞`), always rendered with the decimal. -/
def toFixed1 (q : ℚ) : String :=
  let t : ℤ := jround (10 * q)
  (if t < 0 then "-" else "")
    ++ toString (t.natAbs / 10) ++ "." ++ toString (t.natAbs % 10)

/-- The regex replace of a final `".0"` on the character list. -/
def stripDotZeroL (l : List Char) : List Char :=
  if l.reverse.take 2 = ['0', '.'] then (l.reverse.drop 2).reverse else l

/-- The source's regex replace: strip a trailing `".0"` if present. -/
def stripDotZero (s : String) : String := ⟨stripDotZeroL s.data⟩

/-- Function `fmtAxisYen` from `src/shared/base.js`: compact axis label. -/
def fmtAxisYen (n : ℚ) : String :=
  if 100000000 ≤ n then
    stripDotZero (toFixed1 (n / 100000000)) ++ "億"
  else groupDigits (jround (n / 10000)) ++ "万"

/-- Function `clamp` from `src/shared/base.js`: `Math.min(max, Math.max(min, v))`. -/
def clamp (v mn mx : ℚ) : ℚ := min mx (max mn v)

/-- The parameters captured by one `animateNum` call:
`fromVal`/`toVal` are the source's `from`/`to`, `ms` the duration,
`t0` the `performance.now()` captured at the call. -/
structure RunParams where
  fromVal : ℚ
  toVal : ℚ
  ms : ℚ
  t0 : ℚ

/-- The `p` computed by `animateNum.step`: `Math.min((now - t0) / ms, 1)`.
Note the source has no lower clamp at 0. -/
def tickP (P : RunParams) (now : ℚ) : ℚ := min ((now - P.t0) / P.ms) 1

/-- The `ease` computed by `animateNum.step`: `1 - Math.pow(1 - p, 4)`. -/
def tickEase (P : RunParams) (now : ℚ) : ℚ := 1 - (1 - tickP P now) ^ 4

/-- The `cur` computed by `animateNum.step`:
`Math.round(from + (to - from) * ease)`. -/
def tickCur (P : RunParams) (now : ℚ) : ℤ :=
  jround (P.fromVal + (P.toVal - P.fromVal) * tickEase P now)

/-- The string `animateNum.step` writes to the sink:
`fmt ? fmt(cur) : cur.toLocaleString('ja-JP')`. -/
def tickWrite (P : RunParams) (fmt : Option (ℤ → String)) (now : ℚ) : String :=
  match fmt with
  | some f => f (tickCur P now)
  | none => groupDigits (tickCur P now)

/-- The `cur` values written over a cancellation-free run whose frames fire
at the given timestamps: each frame writes, and `step` re-schedules only
while `p < 1` (so frames after the completing tick never fire). -/
def runCurs (P : RunParams) : List ℚ → List ℤ
  | [] => []
  | now :: rest =>
    tickCur P now :: (if tickP P now < 1 then runCurs P rest else [])

/-- An event seen by the frame scheduler: a frame firing at timestamp `now`,
or a `cancelAnimationFrame(id)` request from the caller. -/
inductive AnimEvent where
  | frame (now : ℚ)
  | cancel (id : ℕ)

/-- Scheduler state for one `animateNum` run: the id of the currently
scheduled tick (if any), the next fresh `requestAnimationFrame` id, and
the `(timestamp, string)` writes made to the sink so far. -/
structure AnimState where
  pending : Option ℕ
  nextId : ℕ
  writes : List (ℚ × String)

/-- One scheduler event against `animateNum.step`: a frame fires the
pending callback (writes, then re-schedules under a fresh id while
`p < 1`); a cancel removes the pending callback only if the id matches. -/
def animStep (P : RunParams) (fmt : Option (ℤ → String)) (s : AnimState) :
    AnimEvent → AnimState
  | .cancel h => if s.pending = some h then { s with pending := none } else s
  | .frame now =>
    match s.pending with
    | none => s
    | some _ =>
      let s' := { s with writes := s.writes ++ [(now, tickWrite P fmt now)] }
      if tickP P now < 1 then
        { s' with pending := some s.nextId, nextId := s.nextId + 1 }
      else { s' with pending := none }

/-- A whole run: `animateNum` schedules the first tick (id 0), then the
event list is processed in order. -/
def animRun (P : RunParams) (fmt : Option (ℤ → String))
    (evs : List AnimEvent) : AnimState :=
  evs.foldl (animStep P fmt) ⟨some 0, 1, []⟩

/-- The value `animateNum` returns to the caller: the id of the first
`requestAnimationFrame` request.  The later reassignment of `rafId`
inside `step` is invisible to the caller. -/
def animateNumHandle : ℕ := 0

/-! ### Definitions written from the specification's words
These mirror the claims' phrasing and are compared against the
source-derived definitions above. -/

/-- Operation `decompose` as claim C1 words it: round to an integer `n`; for
`n ≥ 100 000 000` split into `oku = floor(n / 1e8)` and
`man = round((n mod 1e8) / 1e4)`; otherwise show `round(n / 1e4)`. -/
def fmtYenPartsClaim (a : ℚ) : FormattedParts :=
  let n : ℤ := jround a
  if 100000000 ≤ n then
    let oku : ℕ := n.toNat / 100000000
    let man : ℤ := jround ((n.toNat % 100000000 : ℕ) / 10000)
    if man = 0 then ⟨groupDigits (oku : ℤ), "億円"⟩
    else ⟨groupDigits (oku : ℤ) ++ "億" ++ groupDigits man, "万円"⟩
  else ⟨groupDigits (jround ((n : ℚ) / 10000)), "万円"⟩

/-- The single-decimal 億 label as claim C6 words it: `a / 1e8` rounded to
tenths, the decimal shown only when it is nonzero. -/
def okuLabelClaim (t : ℤ) : String :=
  if t.natAbs % 10 = 0 then toString (t.natAbs / 10)
  else toString (t.natAbs / 10) ++ "." ++ toString (t.natAbs % 10)

/-- Operation `formatAxisLabel` as claim C6 words it. -/
def fmtAxisYenClaim (a : ℚ) : String :=
  if 100000000 ≤ a then okuLabelClaim (jround (10 * (a / 100000000))) ++ "億"
  else groupDigits (jround (a / 10000)) ++ "万"

/-- Operation `decompose` as claim C3 words it: negative or `NaN` input fails with
`InvalidArgument` instead of producing parts. -/
def decomposeClaim (a : JSNum) : Except String FormattedParts :=
  match a with
  | .nan => .error "InvalidArgument"
  | .num q => if q < 0 then .error "InvalidArgument" else .ok (fmtYenParts (.num q))

/-- The tick write as claim C5 words it: progress clamped to `[0, 1]`
(via the source's own `clamp`), then eased, rounded, formatted. -/
def tickWriteClaimed (P : RunParams) (fmt : Option (ℤ → String)) (now : ℚ) :
    String :=
  let p := clamp ((now - P.t0) / P.ms) 0 1
  let e := 1 - (1 - p) ^ 4
  let cur := jround (P.fromVal + (P.toVal - P.fromVal) * e)
  match fmt with
  | some f => f cur
  | none => groupDigits cur

/-! ### Helper lemmas -/

/-- Evaluate `jround` from two rational bounds. -/
theorem jround_eq (q : ℚ) (z : ℤ) (h₁ : (z : ℚ) ≤ q + 1/2)
    (h₂ : q + 1/2 < (z : ℚ) + 1) : jround q = z := by
  unfold jround
  rw [Int.floor_eq_iff]
  exact ⟨h₁, h₂⟩

/-- JS `Math.round` is the identity on integers. -/
theorem jround_intCast (z : ℤ) : jround ((z : ℚ)) = z := by
  apply jround_eq <;> norm_num

/-- Rational floor of a quotient of naturals is natural division. -/
theorem floor_natCast_div (m b : ℕ) :
    ⌊(m : ℚ) / (b : ℚ)⌋ = ((m / b : ℕ) : ℤ) := by
  rw [← Int.natCast_floor_eq_floor (by positivity), Nat.floor_div_eq_div]

/-- The source's `fmtYenParts`, computed through JS number semantics,
agrees with the claim's integer-arithmetic description everywhere. -/
theorem fmtYenParts_eq_claim (a : ℚ) : fmtYenParts (.num a) = fmtYenPartsClaim a := by
  unfold fmtYenParts fmtYenPartsClaim
  simp only [jsRound, jsGe, jsDivC, jsModC, jsFloor, jsToLocaleString, jsTrunc,
    decide_eq_true_eq]
  set n : ℤ := jround a with hn
  by_cases hc : (100000000 : ℤ) ≤ n
  · have hc' : (100000000 : ℚ) ≤ ((n : ℤ) : ℚ) := by exact_mod_cast hc
    rw [if_pos hc', if_pos hc]
    have hn0 : (0 : ℤ) ≤ n := le_trans (by norm_num) hc
    have hmn : ((n.toNat : ℕ) : ℤ) = n := Int.toNat_of_nonneg hn0
    have hmq : ((n.toNat : ℕ) : ℚ) = ((n : ℤ) : ℚ) := by exact_mod_cast hmn
    have he8 : ((100000000 : ℕ) : ℚ) = (100000000 : ℚ) := by norm_num
    have hoku : ⌊((n : ℤ) : ℚ) / (100000000 : ℚ)⌋ = ((n.toNat / 100000000 : ℕ) : ℤ) := by
      rw [← hmq, ← he8]
      exact floor_natCast_div n.toNat 100000000
    have hdivpos : (0 : ℚ) ≤ ((n : ℤ) : ℚ) / (100000000 : ℚ) := by
      apply div_nonneg _ (by norm_num)
      exact_mod_cast hn0
    rw [if_pos hdivpos, hoku]
    have hmod : ((n : ℤ) : ℚ) - 100000000 * (((n.toNat / 100000000 : ℕ) : ℤ) : ℚ)
        = ((n.toNat % 100000000 : ℕ) : ℚ) := by
      have hdm : (100000000 : ℚ) * ((n.toNat / 100000000 : ℕ) : ℚ)
          + ((n.toNat % 100000000 : ℕ) : ℚ) = ((n.toNat : ℕ) : ℚ) := by
        exact_mod_cast Nat.div_add_mod n.toNat 100000000
      rw [← hmq, Int.cast_natCast]
      linarith [hdm]
    rw [hmod, Int.floor_intCast]
    by_cases hm0 : jround (((n.toNat % 100000000 : ℕ) : ℚ) / 10000) = 0
    · rw [if_pos (by exact_mod_cast congrArg (fun z : ℤ => JSNum.num (z : ℚ)) hm0),
        if_pos hm0]
    · rw [if_neg ?_, if_neg hm0]
      · rw [Int.floor_intCast]
      · intro hcontra
        apply hm0
        have : ((jround (((n.toNat % 100000000 : ℕ) : ℚ) / 10000) : ℤ) : ℚ) = ((0 : ℤ) : ℚ) := by
          simpa using hcontra
        exact_mod_cast this
  · have hc' : ¬ (100000000 : ℚ) ≤ ((n : ℤ) : ℚ) := by exact_mod_cast hc
    rw [if_neg hc', if_neg hc, Int.floor_intCast]

/-- Stripping `".0"` from a string that ends in `"."` followed by one
character: the suffix goes exactly when that character is `'0'`. -/
theorem stripDotZero_append (x : String) (c : Char) :
    stripDotZero ⟨x.data ++ ['.', c]⟩
      = if c = '0' then x else ⟨x.data ++ ['.', c]⟩ := by
  unfold stripDotZero stripDotZeroL
  simp only [List.reverse_append, List.reverse_cons, List.reverse_nil,
    List.nil_append, List.cons_append, List.take, List.drop]
  by_cases hc : c = '0'
  · subst hc
    rw [if_pos rfl, if_pos rfl]
    simp
  · rw [if_neg ?_, if_neg hc]
    intro h
    exact hc (by injection h)

/-- Stripping on a string of the shape `x ++ "." ++ s`
with `s` a single character `c`. -/
theorem strip_single (x s : String) (c : Char) (hs : s.data = [c]) :
    stripDotZero (x ++ "." ++ s) = if c = '0' then x else x ++ "." ++ s := by
  have hform : x ++ "." ++ s = (⟨x.data ++ ['.', c]⟩ : String) := by
    apply String.ext
    rw [String.data_append, String.data_append, hs]
    simp
  rw [hform, stripDotZero_append]

/-- Effect of the `".0"` strip on a `toFixed(1)`-shaped string. -/
theorem strip_toFixed (x : String) (b : ℕ) (hb : b < 10) :
    stripDotZero (x ++ "." ++ toString b)
      = if b = 0 then x else x ++ "." ++ toString b := by
  interval_cases b
  · rw [strip_single x _ '0' (by decide), if_pos rfl, if_pos rfl]
  · rw [strip_single x _ '1' (by decide), if_neg (by decide), if_neg (by decide)]
  · rw [strip_single x _ '2' (by decide), if_neg (by decide), if_neg (by decide)]
  · rw [strip_single x _ '3' (by decide), if_neg (by decide), if_neg (by decide)]
  · rw [strip_single x _ '4' (by decide), if_neg (by decide), if_neg (by decide)]
  · rw [strip_single x _ '5' (by decide), if_neg (by decide), if_neg (by decide)]
  · rw [strip_single x _ '6' (by decide), if_neg (by decide), if_neg (by decide)]
  · rw [strip_single x _ '7' (by decide), if_neg (by decide), if_neg (by decide)]
  · rw [strip_single x _ '8' (by decide), if_neg (by decide), if_neg (by decide)]
  · rw [strip_single x _ '9' (by decide), if_neg (by decide), if_neg (by decide)]

/-- The source's `fmtAxisYen` agrees with claim C6's description everywhere. -/
theorem fmtAxisYen_eq_claim (a : ℚ) : fmtAxisYen a = fmtAxisYenClaim a := by
  unfold fmtAxisYen fmtAxisYenClaim
  by_cases hc : (100000000 : ℚ) ≤ a
  · rw [if_pos hc, if_pos hc]
    have ht10 : (10 : ℤ) ≤ jround (10 * (a / 100000000)) := by
      apply Int.le_floor.mpr
      have h1 : (1 : ℚ) ≤ a / 100000000 := (one_le_div (by norm_num)).mpr hc
      push_cast
      linarith
    have ht0 : (0 : ℤ) ≤ jround (10 * (a / 100000000)) := le_trans (by norm_num) ht10
    congr 1
    simp only [toFixed1, okuLabelClaim]
    rw [if_neg (not_lt.mpr ht0)]
    have hempty : ∀ s : String, "" ++ s = s := fun s => rfl
    rw [hempty]
    rw [strip_toFixed _ _ (Nat.mod_lt _ (by norm_num))]
  · rw [if_neg hc, if_neg hc]

/-- Progress `p` never exceeds 1 (the `Math.min` bound). -/
theorem tickP_le_one (P : RunParams) (now : ℚ) : tickP P now ≤ 1 :=
  min_le_right _ _

/-- Progress `p` is monotone in the tick timestamp (positive duration). -/
theorem tickP_mono (P : RunParams) (hms : 0 < P.ms) {n1 n2 : ℚ} (h : n1 ≤ n2) :
    tickP P n1 ≤ tickP P n2 := by
  unfold tickP
  apply min_le_min _ le_rfl
  exact (div_le_div_iff_of_pos_right hms).mpr (by linarith)

/-- The ease-out-quartic value is monotone in the tick timestamp. -/
theorem tickEase_mono (P : RunParams) (hms : 0 < P.ms) {n1 n2 : ℚ}
    (h : n1 ≤ n2) : tickEase P n1 ≤ tickEase P n2 := by
  unfold tickEase
  have h1 : tickP P n1 ≤ tickP P n2 := tickP_mono P hms h
  have h2 : tickP P n2 ≤ 1 := tickP_le_one P n2
  have key : (1 - tickP P n2) ^ 4 ≤ (1 - tickP P n1) ^ 4 :=
    pow_le_pow_left₀ (by linarith) (by linarith) 4
  linarith

/-- Written values are non-decreasing in time when `to ≥ from`. -/
theorem tickCur_mono_up (P : RunParams) (hms : 0 < P.ms)
    (hdir : P.fromVal ≤ P.toVal) {n1 n2 : ℚ} (h : n1 ≤ n2) :
    tickCur P n1 ≤ tickCur P n2 := by
  unfold tickCur jround
  apply Int.floor_le_floor
  have he := tickEase_mono P hms h
  have := mul_le_mul_of_nonneg_left he (sub_nonneg.mpr hdir)
  linarith

/-- Written values are non-increasing in time when `to ≤ from`. -/
theorem tickCur_mono_down (P : RunParams) (hms : 0 < P.ms)
    (hdir : P.toVal ≤ P.fromVal) {n1 n2 : ℚ} (h : n1 ≤ n2) :
    tickCur P n2 ≤ tickCur P n1 := by
  unfold tickCur jround
  apply Int.floor_le_floor
  have he := tickEase_mono P hms h
  have := mul_le_mul_of_nonpos_left he (sub_nonpos.mpr hdir)
  linarith

/-- At or after `t0 + ms`, `p` saturates at exactly 1. -/
theorem tickP_final (P : RunParams) (hms : 0 < P.ms) {now : ℚ}
    (h : P.t0 + P.ms ≤ now) : tickP P now = 1 := by
  unfold tickP
  apply min_eq_right
  rw [le_div_iff₀ hms]
  linarith

/-- At or after `t0 + ms`, the tick writes exactly `Math.round(to)`. -/
theorem tickCur_final (P : RunParams) (hms : 0 < P.ms) {now : ℚ}
    (h : P.t0 + P.ms ≤ now) : tickCur P now = jround P.toVal := by
  unfold tickCur tickEase
  rw [tickP_final P hms h]
  norm_num

/-- In an upward run over non-decreasing frames, the written values form a
non-decreasing sequence. -/
theorem runCurs_chain_up (P : RunParams) (hms : 0 < P.ms)
    (hdir : P.fromVal ≤ P.toVal) :
    ∀ frames : List ℚ, frames.Chain' (· ≤ ·) →
      (runCurs P frames).Chain' (· ≤ ·) := by
  intro frames
  induction frames with
  | nil => intro _; exact List.chain'_nil
  | cons now rest ih =>
    intro hch
    rw [runCurs]
    by_cases hp : tickP P now < 1
    · rw [if_pos hp]
      have ih' := ih hch.tail
      cases rest with
      | nil => exact List.chain'_singleton _
      | cons n2 rest2 =>
        rw [runCurs] at ih' ⊢
        exact ih'.cons (tickCur_mono_up P hms hdir (List.chain'_cons.mp hch).1)
    · rw [if_neg hp]
      exact List.chain'_singleton _

/-- In a downward run over non-decreasing frames, the written values form a
non-increasing sequence. -/
theorem runCurs_chain_down (P : RunParams) (hms : 0 < P.ms)
    (hdir : P.toVal ≤ P.fromVal) :
    ∀ frames : List ℚ, frames.Chain' (· ≤ ·) →
      (runCurs P frames).Chain' (fun x y => y ≤ x) := by
  intro frames
  induction frames with
  | nil => intro _; exact List.chain'_nil
  | cons now rest ih =>
    intro hch
    rw [runCurs]
    by_cases hp : tickP P now < 1
    · rw [if_pos hp]
      have ih' := ih hch.tail
      cases rest with
      | nil => exact List.chain'_singleton _
      | cons n2 rest2 =>
        rw [runCurs] at ih' ⊢
        exact ih'.cons (tickCur_mono_down P hms hdir (List.chain'_cons.mp hch).1)
    · rw [if_neg hp]
      exact List.chain'_singleton _

/-- Every `(timestamp, string)` pair a run ever writes is the pure tick
function of that timestamp: history does not enter the written value. -/
theorem animRun_writes_spec (P : RunParams) (fmt : Option (ℤ → String)) :
    ∀ evs : List AnimEvent, ∀ s0 : AnimState,
      (∀ p ∈ s0.writes, p.2 = tickWrite P fmt p.1) →
      ∀ p ∈ (evs.foldl (animStep P fmt) s0).writes, p.2 = tickWrite P fmt p.1 := by
  intro evs
  induction evs with
  | nil => intro s0 h; exact h
  | cons ev rest ih =>
    intro s0 h0
    rw [List.foldl_cons]
    apply ih
    cases ev with
    | cancel hId =>
      simp only [animStep]
      split
      · intro p hp; exact h0 p hp
      · exact h0
    | frame now =>
      simp only [animStep]
      split
      · exact h0
      · split
        all_goals {
          intro p hp
          rcases List.mem_append.mp hp with hmem | hmem
          · exact h0 p hmem
          · rw [List.mem_singleton.mp hmem]
        }

/-! ### Concrete evaluations of the formatter -/

theorem fmtYenPartsClaim_ex1 :
    fmtYenPartsClaim 123456789 = ⟨"1億2,346", "万円"⟩ := by
  have h1 : jround ((123456789 : ℚ)) = 123456789 :=
    jround_eq _ _ (by norm_num) (by norm_num)
  simp only [fmtYenPartsClaim, h1]
  rw [if_pos (by norm_num : (100000000 : ℤ) ≤ 123456789)]
  have hnat : ((123456789 : ℤ).toNat % 100000000 : ℕ) = 23456789 := by decide
  rw [hnat]
  have h3 : jround (((23456789 : ℕ) : ℚ) / 10000) = 2346 := by
    apply jround_eq <;> push_cast <;> norm_num
  rw [h3]
  rw [if_neg (by norm_num : ¬ (2346 : ℤ) = 0)]
  decide

theorem fmtYenPartsClaim_ex2 :
    fmtYenPartsClaim 100000000 = ⟨"1", "億円"⟩ := by
  have h1 : jround ((100000000 : ℚ)) = 100000000 :=
    jround_eq _ _ (by norm_num) (by norm_num)
  simp only [fmtYenPartsClaim, h1]
  rw [if_pos (by norm_num : (100000000 : ℤ) ≤ 100000000)]
  have hnat : ((100000000 : ℤ).toNat % 100000000 : ℕ) = 0 := by decide
  rw [hnat]
  have h3 : jround (((0 : ℕ) : ℚ) / 10000) = 0 := by
    apply jround_eq <;> push_cast <;> norm_num
  rw [h3]
  rw [if_pos rfl]
  decide

theorem fmtYenPartsClaim_ex3 : fmtYenPartsClaim 0 = ⟨"0", "万円"⟩ := by
  have h1 : jround ((0 : ℚ)) = 0 := jround_eq _ _ (by norm_num) (by norm_num)
  simp only [fmtYenPartsClaim, h1]
  rw [if_neg (by norm_num : ¬ (100000000 : ℤ) ≤ 0)]
  have h2 : jround ((((0 : ℤ)) : ℚ) / 10000) = 0 := by
    apply jround_eq <;> push_cast <;> norm_num
  rw [h2]
  decide

theorem fmtYenPartsClaim_ex9 :
    fmtYenPartsClaim 199999999 = ⟨"1億10,000", "万円"⟩ := by
  have h1 : jround ((199999999 : ℚ)) = 199999999 :=
    jround_eq _ _ (by norm_num) (by norm_num)
  simp only [fmtYenPartsClaim, h1]
  rw [if_pos (by norm_num : (100000000 : ℤ) ≤ 199999999)]
  have hnat : ((199999999 : ℤ).toNat % 100000000 : ℕ) = 99999999 := by decide
  rw [hnat]
  have h3 : jround (((99999999 : ℕ) : ℚ) / 10000) = 10000 := by
    apply jround_eq <;> push_cast <;> norm_num
  rw [h3]
  rw [if_neg (by norm_num : ¬ (10000 : ℤ) = 0)]
  decide

theorem fmtYenPartsClaim_exNeg :
    fmtYenPartsClaim (-50000) = ⟨"-5", "万円"⟩ := by
  have h1 : jround ((-50000 : ℚ)) = -50000 :=
    jround_eq _ _ (by norm_num) (by norm_num)
  simp only [fmtYenPartsClaim, h1]
  rw [if_neg (by norm_num : ¬ (100000000 : ℤ) ≤ -50000)]
  have h2 : jround ((((-50000 : ℤ)) : ℚ) / 10000) = -5 := by
    apply jround_eq <;> push_cast <;> norm_num
  rw [h2]
  decide

/-! ### The claims -/

/-- C1: for every finite Amount `a`, `decompose` (`fmtYenParts`) first
rounds `a` to the nearest integer `n`; for `n ≥ 100 000 000` it computes
`oku = floor(n / 1e8)` and `man = round((n mod 1e8) / 1e4)` and returns
`{groupDigits oku, "億円"}` when `man = 0`, otherwise
`{groupDigits oku ++ "億" ++ groupDigits man, "万円"}`; below 1e8 it
returns `{groupDigits (round (n / 1e4)), "万円"}`.  In particular
`decompose 123456789 = {"1億2,346", "万円"}`,
`decompose 100000000 = {"1", "億円"}` and `decompose 0 = {"0", "万円"}`. -/
theorem decompose_rounds_then_splits :
    (∀ a : ℚ, fmtYenParts (.num a) = fmtYenPartsClaim a)
    ∧ fmtYenParts (.num 123456789) = ⟨"1億2,346", "万円"⟩
    ∧ fmtYenParts (.num 100000000) = ⟨"1", "億円"⟩
    ∧ fmtYenParts (.num 0) = ⟨"0", "万円"⟩ :=
  ⟨fmtYenParts_eq_claim,
   by rw [fmtYenParts_eq_claim]; exact fmtYenPartsClaim_ex1,
   by rw [fmtYenParts_eq_claim]; exact fmtYenPartsClaim_ex2,
   by rw [fmtYenParts_eq_claim]; exact fmtYenPartsClaim_ex3⟩

/-- C3 counterexample: the claim says `decompose` rejects negative input
with `InvalidArgument`, but the source's `fmtYenParts` returns an
ordinary parts record at `-50000` (the claim-side rejecting variant
errors there, the source value does not). -/
theorem decompose_reject_counterexample :
    decomposeClaim (.num (-50000)) = .error "InvalidArgument"
    ∧ fmtYenParts (.num (-50000)) = ⟨"-5", "万円"⟩ := by
  constructor
  · simp only [decomposeClaim]
    rw [if_pos (by norm_num : (-50000 : ℚ) < 0)]
  · rw [fmtYenParts_eq_claim]; exact fmtYenPartsClaim_exNeg

/-- C3 amended: the source's `decompose` does not reject negative or
`NaN` input; both fall through to the 万円 branch and yield a parts
record, e.g. `decompose (-50000) = {"-5", "万円"}` and
`decompose NaN = {"NaN", "万円"}`. -/
theorem decompose_accepts_negative_and_nan :
    fmtYenParts (.num (-50000)) = ⟨"-5", "万円"⟩
    ∧ fmtYenParts .nan = ⟨"NaN", "万円"⟩ := by
  constructor
  · rw [fmtYenParts_eq_claim]; exact fmtYenPartsClaim_exNeg
  · rfl

/-- C6: `formatAxisLabel` (`fmtAxisYen`) shows, at or above 1e8, the
amount in 億 rounded to one decimal with a trailing `".0"` stripped and
no grouping; below 1e8 it shows `round(a / 1e4)` grouped with `"万"`.
In particular `formatAxisLabel 123456789 = "1.2億"` and
`formatAxisLabel 1234000 = "123万"`. -/
theorem axis_label_two_tier :
    (∀ a : ℚ, fmtAxisYen a = fmtAxisYenClaim a)
    ∧ fmtAxisYen 123456789 = "1.2億"
    ∧ fmtAxisYen 1234000 = "123万" := by
  refine ⟨fmtAxisYen_eq_claim, ?_, ?_⟩
  · rw [fmtAxisYen_eq_claim]
    simp only [fmtAxisYenClaim]
    rw [if_pos (by norm_num : (100000000 : ℚ) ≤ 123456789)]
    have h : jround (10 * ((123456789 : ℚ) / 100000000)) = 12 :=
      jround_eq _ _ (by norm_num) (by norm_num)
    rw [h]
    decide
  · rw [fmtAxisYen_eq_claim]
    simp only [fmtAxisYenClaim]
    rw [if_neg (by norm_num : ¬ (100000000 : ℚ) ≤ 1234000)]
    have h : jround ((1234000 : ℚ) / 10000) = 123 :=
      jround_eq _ _ (by norm_num) (by norm_num)
    rw [h]
    decide

/-- C7: `format` (`fmtYen`) is exactly the concatenation of the parts
returned by `decompose` (`fmtYenParts`), e.g. at `123456789` it yields
`"1億2,346万円"`. -/
theorem format_concats_parts :
    (∀ a : JSNum, fmtYen a = (fmtYenParts a).num ++ (fmtYenParts a).unit)
    ∧ fmtYen (.num 123456789) = "1億2,346万円" := by
  constructor
  · intro a; rfl
  · show (fmtYenParts (.num 123456789)).num ++ (fmtYenParts (.num 123456789)).unit
      = "1億2,346万円"
    rw [fmtYenParts_eq_claim, fmtYenPartsClaim_ex1]
    rfl

/-- C9: `man` is not kept below 10 000 — at `199999999` the remainder
`99999999` rounds up to `10000`, producing `{"1億10,000", "万円"}`; the
overflow is not carried into the 億 part (which a conventional reading
would render as `{"2", "億円"}`). -/
theorem man_component_can_reach_ten_thousand :
    fmtYenParts (.num 199999999) = ⟨"1億10,000", "万円"⟩
    ∧ fmtYenParts (.num 199999999) ≠ ⟨"2", "億円"⟩ := by
  constructor
  · rw [fmtYenParts_eq_claim]; exact fmtYenPartsClaim_ex9
  · rw [fmtYenParts_eq_claim, fmtYenPartsClaim_ex9]
    decide

/-- C10: `decompose` is total on every numeric input: every negative
input falls through to the sub-1e8 branch and carries unit `"万円"`, and
`NaN` yields `{num := "NaN", unit := "万円"}`; nothing is rejected. -/
theorem decompose_total_on_negatives_and_nan :
    (∀ q : ℚ, q < 0 → (fmtYenParts (.num q)).unit = "万円")
    ∧ fmtYenParts .nan = ⟨"NaN", "万円"⟩ := by
  constructor
  · intro q hq
    have h12 : ⌊(1/2 : ℚ)⌋ = 0 := by
      rw [Int.floor_eq_iff]
      norm_num
    have hn : jround q < 100000000 := by
      unfold jround
      have hle : ⌊q + 1/2⌋ ≤ ⌊(1/2 : ℚ)⌋ := Int.floor_le_floor (by linarith)
      omega
    unfold fmtYenParts
    simp only [jsRound, jsGe, decide_eq_true_eq]
    have hcon : ¬ (100000000 : ℚ) ≤ ((jround q : ℤ) : ℚ) := by
      intro hcon
      have : (100000000 : ℤ) ≤ jround q := by exact_mod_cast hcon
      omega
    rw [if_neg hcon]
  · rfl

/-- C10 witness: instantiated at `-5`. -/
theorem decompose_total_on_negatives_and_nan_witness :
    (fmtYenParts (.num (-5))).unit = "万円" :=
  decompose_total_on_negatives_and_nan.1 (-5) (by norm_num)

/-! ### Concrete evaluations of the animator -/

/-- Progress stays below 1 strictly before `t0 + ms` (positive duration). -/
theorem tickP_lt_one_of (P : RunParams) (hms : 0 < P.ms) {now : ℚ}
    (h : now - P.t0 < P.ms) : tickP P now < 1 := by
  unfold tickP
  apply lt_of_le_of_lt (min_le_left _ _)
  rw [div_lt_one hms]
  exact h

/-- The final tick of `start(sink, 0, 1000, 700)` writes `"1,000"`. -/
theorem tickWrite_final_example :
    tickWrite ⟨0, 1000, 700, 0⟩ none 700 = "1,000" := by
  have hcur : tickCur ⟨0, 1000, 700, 0⟩ 700 = 1000 := by
    have hp : tickP ⟨0, 1000, 700, 0⟩ 700 = 1 :=
      tickP_final _ (by norm_num) (by norm_num)
    unfold tickCur tickEase
    rw [hp]
    exact jround_eq _ _ (by norm_num) (by norm_num)
  simp only [tickWrite]
  rw [hcur]
  decide

/-- A tick whose timestamp precedes `t0` by a full duration: the source's
un-clamped `p = -1` drives the write to `"-15,000"`. -/
theorem tickWrite_before_t0_example :
    tickWrite ⟨0, 1000, 700, 700⟩ none 0 = "-15,000" := by
  have hp : tickP ⟨0, 1000, 700, 700⟩ 0 = -1 := by
    unfold tickP
    rw [min_eq_left (by norm_num)]
    norm_num
  have hcur : tickCur ⟨0, 1000, 700, 700⟩ 0 = -15000 := by
    unfold tickCur tickEase
    rw [hp]
    exact jround_eq _ _ (by norm_num) (by norm_num)
  simp only [tickWrite]
  rw [hcur]
  decide

/-- The same tick under the claimed clamped progress would write `"0"`. -/
theorem tickWriteClaimed_before_t0_example :
    tickWriteClaimed ⟨0, 1000, 700, 700⟩ none 0 = "0" := by
  have hcl : clamp (((0 : ℚ) - 700) / 700) 0 1 = 0 := by
    unfold clamp
    rw [max_eq_left (by norm_num)]
    rw [min_eq_right (by norm_num)]
  simp only [tickWriteClaimed]
  rw [hcl]
  rw [jround_eq _ 0 (by norm_num) (by norm_num)]
  decide

/-- C2: the value `animateNum` returns is the id of the *first* scheduled
tick only.  Cancelling with it before the first tick fires yields zero
writes (second conjunct), but once the first tick has fired the chain
runs under fresh ids the caller never sees, so the same cancellation no
longer stops the run: a second write still lands (first conjunct),
contradicting the claim that the handle cancels the pending tick chain
at any time before natural completion. -/
theorem cancel_handle_goes_stale :
    (animRun ⟨0, 1000, 700, 0⟩ none
        [.frame 100, .cancel animateNumHandle, .frame 200]).writes.length = 2
    ∧ (animRun ⟨0, 1000, 700, 0⟩ none
        [.cancel animateNumHandle, .frame 100]).writes = [] := by
  constructor
  · have h100 : tickP ⟨0, 1000, 700, 0⟩ 100 < 1 :=
      tickP_lt_one_of _ (by norm_num) (by norm_num)
    have h200 : tickP ⟨0, 1000, 700, 0⟩ 200 < 1 :=
      tickP_lt_one_of _ (by norm_num) (by norm_num)
    have s1 : animStep ⟨0, 1000, 700, 0⟩ none ⟨some 0, 1, []⟩ (.frame 100)
        = ⟨some 1, 2, [(100, tickWrite ⟨0, 1000, 700, 0⟩ none 100)]⟩ := by
      simp [animStep, h100]
    have s2 : animStep ⟨0, 1000, 700, 0⟩ none
        ⟨some 1, 2, [(100, tickWrite ⟨0, 1000, 700, 0⟩ none 100)]⟩ (.cancel 0)
        = ⟨some 1, 2, [(100, tickWrite ⟨0, 1000, 700, 0⟩ none 100)]⟩ := by
      simp [animStep]
    have s3 : animStep ⟨0, 1000, 700, 0⟩ none
        ⟨some 1, 2, [(100, tickWrite ⟨0, 1000, 700, 0⟩ none 100)]⟩ (.frame 200)
        = ⟨some 2, 3, [(100, tickWrite ⟨0, 1000, 700, 0⟩ none 100),
            (200, tickWrite ⟨0, 1000, 700, 0⟩ none 200)]⟩ := by
      simp [animStep, h200]
    unfold animRun animateNumHandle
    simp only [List.foldl_cons, List.foldl_nil, s1, s2, s3]
    rfl
  · have s1 : animStep ⟨0, 1000, 700, 0⟩ none ⟨some 0, 1, []⟩ (.cancel 0)
        = ⟨none, 1, []⟩ := by
      simp [animStep]
    have s2 : animStep ⟨0, 1000, 700, 0⟩ none ⟨none, 1, []⟩ (.frame 100)
        = ⟨none, 1, []⟩ := by
      simp [animStep]
    unfold animRun animateNumHandle
    simp only [List.foldl_cons, List.foldl_nil, s1, s2]

/-- C4: over non-decreasing tick timestamps the written values are
monotone in the direction of `to - from`, every tick at or after
`t0 + durationMs` writes exactly `Math.round(to)`, and concretely the
final tick of `start(sink, 0, 1000, 700)` writes `"1,000"`. -/
theorem run_monotone_and_final_exact (P : RunParams) (hms : 0 < P.ms) :
    (∀ frames : List ℚ, frames.Chain' (· ≤ ·) → P.fromVal ≤ P.toVal →
        (runCurs P frames).Chain' (· ≤ ·))
    ∧ (∀ frames : List ℚ, frames.Chain' (· ≤ ·) → P.toVal ≤ P.fromVal →
        (runCurs P frames).Chain' (fun x y => y ≤ x))
    ∧ (∀ now : ℚ, P.t0 + P.ms ≤ now → tickCur P now = jround P.toVal)
    ∧ tickWrite ⟨0, 1000, 700, 0⟩ none 700 = "1,000" :=
  ⟨fun frames hch hdir => runCurs_chain_up P hms hdir frames hch,
   fun frames hch hdir => runCurs_chain_down P hms hdir frames hch,
   fun _ h => tickCur_final P hms h,
   tickWrite_final_example⟩

/-- C4 witness: instantiated at `start(sink, 0, 1000, 700)` with the
final tick at 700 ms. -/
theorem run_monotone_and_final_exact_witness :
    tickCur ⟨0, 1000, 700, 0⟩ 700 = jround 1000 :=
  (run_monotone_and_final_exact ⟨0, 1000, 700, 0⟩ (by norm_num)).2.2.1 700
    (by norm_num)

/-- C5 counterexample: the claim's clamped progress and the source's
un-clamped `Math.min` differ on a tick that fires before `t0`: with
`from = 0`, `to = 1000`, `ms = 700`, `t0 = 700` and a tick at `now = 0`,
the source writes `"-15,000"` while the claimed formula writes `"0"`. -/
theorem step_progress_not_clamped :
    tickWrite ⟨0, 1000, 700, 700⟩ none 0 = "-15,000"
    ∧ tickWriteClaimed ⟨0, 1000, 700, 700⟩ none 0 = "0"
    ∧ tickWrite ⟨0, 1000, 700, 700⟩ none 0
        ≠ tickWriteClaimed ⟨0, 1000, 700, 700⟩ none 0 := by
  refine ⟨tickWrite_before_t0_example, tickWriteClaimed_before_t0_example, ?_⟩
  rw [tickWrite_before_t0_example, tickWriteClaimed_before_t0_example]
  decide

/-- C5 amended: each tick computes `p = min((now - t0) / ms, 1)` — with
no lower clamp, so `p` can go below 0 when `now < t0` — and for every
tick at or after `t0` this agrees with the claimed
`clamp((now - t0) / ms, 0, 1)` pipeline, including the eased value, the
rounding, and the formatter choice. -/
theorem step_pipeline_matches_claim_after_t0 (P : RunParams)
    (fmt : Option (ℤ → String)) (now : ℚ) (hms : 0 < P.ms)
    (hnow : P.t0 ≤ now) : tickWrite P fmt now = tickWriteClaimed P fmt now := by
  have hpe : tickP P now = clamp ((now - P.t0) / P.ms) 0 1 := by
    unfold tickP clamp
    rw [max_eq_right (div_nonneg (by linarith) (le_of_lt hms))]
    rw [min_comm]
  unfold tickWrite tickWriteClaimed tickCur tickEase
  rw [hpe]

/-- C5 witness: instantiated at `start(sink, 0, 1000, 700)` with a tick
at 100 ms. -/
theorem step_pipeline_matches_claim_after_t0_witness :
    tickWrite ⟨0, 1000, 700, 0⟩ none 100
      = tickWriteClaimed ⟨0, 1000, 700, 0⟩ none 100 :=
  step_pipeline_matches_claim_after_t0 ⟨0, 1000, 700, 0⟩ none 100
    (by norm_num) (by norm_num)

/-- C8: the string a tick writes is a function of the tick's timestamp
and the run parameters alone — two executions of the same run, whatever
their frame schedules or cancellations, write the same value at any
timestamp they both reach. -/
theorem tick_write_history_free (P : RunParams) (fmt : Option (ℤ → String))
    (evs1 evs2 : List AnimEvent) (t : ℚ) (s1 s2 : String)
    (h1 : (t, s1) ∈ (animRun P fmt evs1).writes)
    (h2 : (t, s2) ∈ (animRun P fmt evs2).writes) : s1 = s2 := by
  have e1 := animRun_writes_spec P fmt evs1 ⟨some 0, 1, []⟩
    (fun p hp => absurd hp (List.not_mem_nil p)) (t, s1) h1
  have e2 := animRun_writes_spec P fmt evs2 ⟨some 0, 1, []⟩
    (fun p hp => absurd hp (List.not_mem_nil p)) (t, s2) h2
  exact e1.trans e2.symm

/-- C8 witness: two schedules of `start(sink, 0, 1000, 700)` — one a bare
frame at 700 ms, one with a stray cancellation first — write the same
string at the shared timestamp. -/
theorem tick_write_history_free_witness : ("1,000" : String) = "1,000" := by
  have hnp : ¬ tickP ⟨0, 1000, 700, 0⟩ 700 < 1 := by
    rw [tickP_final _ (by norm_num) (by norm_num)]
    exact lt_irrefl 1
  have hf : animStep ⟨0, 1000, 700, 0⟩ none ⟨some 0, 1, []⟩ (.frame 700)
      = ⟨none, 1, [(700, "1,000")]⟩ := by
    simp [animStep, hnp, tickWrite_final_example]
  have hrun1 : (animRun ⟨0, 1000, 700, 0⟩ none [.frame 700]).writes
      = [(700, "1,000")] := by
    unfold animRun
    simp only [List.foldl_cons, List.foldl_nil, hf]
  have hrun2 : (animRun ⟨0, 1000, 700, 0⟩ none [.cancel 5, .frame 700]).writes
      = [(700, "1,000")] := by
    have s1 : animStep ⟨0, 1000, 700, 0⟩ none ⟨some 0, 1, []⟩ (.cancel 5)
        = ⟨some 0, 1, []⟩ := by
      simp [animStep]
    unfold animRun
    simp only [List.foldl_cons, List.foldl_nil, s1, hf]
  exact tick_write_history_free ⟨0, 1000, 700, 0⟩ none [.frame 700]
    [.cancel 5, .frame 700] 700 "1,000" "1,000"
    (by rw [hrun1]; exact List.mem_singleton_self _)
    (by rw [hrun2]; exact List.mem_singleton_self _)

end Money

